import Mathlib

/-!
Verification of the TIMESQUARE watch LED-matrix driver (`Watch.cpp`).

The development gives a shallow embedding of the driver:
* the pixel encoder `Watch::drawPixel` acting on the byte memory,
* the refresh interrupt `ISR(TIMER1_COMPA_vect)` as a step function `tick`,
* the buffer-swap coordinator `Watch::swapBuffers`,
* the button handlers `ISR(INT0_vect)`, `ISR(TIMER2_OVF_vect)` and
  `Watch::action`.

Memory is modelled as a function `Nat → Nat` from byte addresses to byte
values; machine bytes are `Nat`s and the C bitwise operators are the `Nat`
bitwise operators (with `~mask` on a `uint8_t` rendered as `255 ^^^ mask`).
-/

namespace TimeSquare

/-- PORTB all-off drive pattern, `B11001010` in the source. -/
def PORTB_OFF : Nat := 0xCA

/-- PORTC all-off drive pattern, `B00110011` in the source. -/
def PORTC_OFF : Nat := 0x33

/-- PORTD all-off drive pattern, `B11001100` in the source. -/
def PORTD_OFF : Nat := 0xCC

/-- Estimated cycle count for interrupt entry/exit (`#define OVERHEAD 53`). -/
def OVERHEAD : Nat := 53

/-- Shortest LED on-time (`#define LEDMINTIME 60`). -/
def LEDMINTIME : Nat := 60

/-- The table `rowBitPortB[] = {0, 0x20, 0, 0x10, 0x04, 0, 0x01, 0}`. -/
def rowBitPortB : Nat → Nat
  | 0 => 0
  | 1 => 0x20
  | 2 => 0
  | 3 => 0x10
  | 4 => 0x04
  | 5 => 0
  | 6 => 0x01
  | 7 => 0
  | _ => 0

/-- The table `rowBitPortC[] = {0, 0, 0x08, 0, 0, 0x04, 0, 0}`. -/
def rowBitPortC : Nat → Nat
  | 2 => 0x08
  | 5 => 0x04
  | _ => 0

/-- The table `rowBitPortD[] = {0x10, 0, 0, 0, 0, 0, 0, 0x20}`. -/
def rowBitPortD : Nat → Nat
  | 0 => 0x10
  | 7 => 0x20
  | _ => 0

/-- The drive-bit table of drive group `g` (0 = PORTB, 1 = PORTC,
2 = PORTD), matching the order in which `drawPixel` writes `p[0]`, `p[1]`,
`p[2]`. -/
def groupMask (g x : Nat) : Nat :=
  if g = 0 then rowBitPortB x else if g = 1 then rowBitPortC x else rowBitPortD x

/-- Point update of a byte memory: `mem[i] = v`. -/
def updByte (buf : Nat → Nat) (i v : Nat) : Nat → Nat :=
  fun j => if j = i then v else buf j

/-- One iteration of the bit loop of `Watch::drawPixel`: depending on the
current intensity bit, `p[0] |= bmask; p[1] |= cmask; p[2] |= dmask` or
`p[0] &= ~bmask; p[1] &= ~cmask; p[2] &= ~dmask`, with `p = buf + base`. -/
def writeGroup (bm cm dm : Nat) (onb : Bool) (base : Nat) (buf : Nat → Nat) : Nat → Nat :=
  updByte
    (updByte
      (updByte buf base (if onb then buf base ||| bm else buf base &&& (255 ^^^ bm)))
      (base + 1) (if onb then buf (base + 1) ||| cm else buf (base + 1) &&& (255 ^^^ cm)))
    (base + 2) (if onb then buf (base + 2) ||| dm else buf (base + 2) &&& (255 ^^^ dm))

/-- The bit loop of `Watch::drawPixel`: for each plane `k` in `ks` write the
three drive-group bytes at offset `3*yn + 24*k` from address `a`
(`p` starts at `y*3` and advances by 24 per plane). -/
def planeFold (a yn bm cm dm c8 : Nat) (ks : List Nat) (buf : Nat → Nat) : Nat → Nat :=
  ks.foldl (fun b k => writeGroup bm cm dm (c8.testBit k) (a + 3 * yn + 24 * k) b) buf

/-- `Watch::drawPixel(x, y, c)` acting on a byte memory whose back buffer
starts at address `a`.  The guard, the truncation `c8 = (uint8_t)c` and the
eight-plane bit loop follow the source. -/
def drawPixelMem (buf : Nat → Nat) (a : Nat) (x y : Int) (c : Nat) : Nat → Nat :=
  if 0 ≤ x ∧ 0 ≤ y ∧ x < 8 ∧ y < 8 then
    planeFold a y.toNat (rowBitPortB x.toNat) (rowBitPortC x.toNat) (rowBitPortD x.toNat)
      (c % 256) (List.range 8) buf
  else buf

/-- Read-back of one bit-plane bit of pixel `(x, y)`: whether the pixel's
drive-line bit is set in the plane-`k` bytes of the buffer at address `a`. -/
def readBit (buf : Nat → Nat) (a x y k : Nat) : Bool :=
  decide ((buf (a + 3 * y + 24 * k) &&& rowBitPortB x) ≠ 0)
  || decide ((buf (a + 3 * y + 24 * k + 1) &&& rowBitPortC x) ≠ 0)
  || decide ((buf (a + 3 * y + 24 * k + 2) &&& rowBitPortD x) ≠ 0)

/-- Decoded intensity of pixel `(x, y)`: the 8-bit number whose bit `k` is
the plane-`k` drive-line bit of the pixel. -/
def readPixel (buf : Nat → Nat) (a x y : Nat) : Nat :=
  (List.range 8).foldl (fun acc k => acc + (if readBit buf a x y k then 2 ^ k else 0)) 0

/-- The driver's shared state: the byte memory holding the image buffer(s),
the construction mode and allocation base, and the `static volatile`
variables `frontIdx`, `ptr`, `plane`, `col`, `swapFlag`, `frames` of
`Watch.cpp`, together with the timer compare register `OCR1A`. -/
structure WatchState where
  mem : Nat → Nat
  dbuf : Bool
  base : Nat
  frontIdx : Nat
  ptr : Nat
  plane : Nat
  col : Nat
  ocr : Nat
  swapFlag : Bool
  frames : Nat

/-- Address of `img[i]`: the constructor sets `img[0]` to the allocation
base and `img[1]` to `img[0] + bufSize` when double-buffered, else to
`img[0]` itself. -/
def imgAddr (s : WatchState) (i : Nat) : Nat :=
  if i = 0 then s.base else if s.dbuf then s.base + 192 else s.base

/-- The constructor's initialization pattern: byte `i` of the buffer is
`PORTB_OFF`, `PORTC_OFF` or `PORTD_OFF` according to `i % 3`. -/
def offPattern (r : Nat) : Nat :=
  if r = 0 then PORTB_OFF else if r = 1 then PORTC_OFF else PORTD_OFF

/-- State after `Watch::Watch(dbuf)` and `Watch::begin()`: the buffer bytes
are filled with the off pattern (and copied to the back buffer when
double-buffered), `ptr = img[0]`, the static initializers give
`plane = 7`, `col = 7`, `frontIdx = 0`, `swapFlag = false`, `frames = 0`,
and `begin()` programs `OCR1A = 100`.  `ext` is the memory outside the
allocation. -/
def initWatch (dbuf : Bool) (base : Nat) (ext : Nat → Nat) : WatchState :=
  let bufSize := 3 * 8 * 8
  let allocSize := if dbuf then bufSize * 2 else bufSize
  { mem := fun ad => if base ≤ ad ∧ ad < base + allocSize then offPattern ((ad - base) % 3) else ext ad
    dbuf := dbuf
    base := base
    frontIdx := 0
    ptr := base
    plane := 7
    col := 7
    ocr := 100
    swapFlag := false
    frames := 0 }

/-- `Watch::drawPixel` on the driver state: the write goes through
`img[1 - frontIdx]`, the back buffer. -/
def WatchState.drawPixel (s : WatchState) (x y : Int) (c : Nat) : WatchState :=
  { s with mem := drawPixelMem s.mem (imgAddr s (1 - s.frontIdx)) x y c }

/-- The hard-coded column successor of the refresh interrupt: the `nxt`
argument of each `COLEND` in the `switch(col)` of `ISR(TIMER1_COMPA_vect)`. -/
def nextCol (c : Nat) : Nat :=
  if c = 0 then 4
  else if c = 1 then 5
  else if c = 2 then 6
  else if c = 3 then 7
  else if c = 4 then 2
  else if c = 5 then 3
  else if c = 6 then 1
  else if c = 7 then 0
  else c

/-- One firing of `ISR(TIMER1_COMPA_vect)`.  Case `col == 0` reprograms
`OCR1A = (LEDMINTIME << plane) - OVERHEAD`; case `col == 7` advances the
plane counter and, on wrap-around to plane 0, commits a pending buffer
swap, resets `ptr` to the front buffer and counts the frame (a 16-bit
`unsigned int` on AVR, hence mod 65536).  All cases advance `col` to the
hard-coded next column. -/
def tick (s : WatchState) : WatchState :=
  if s.col = 0 then
    { s with ocr := (LEDMINTIME <<< s.plane) - OVERHEAD, col := 4 }
  else if s.col = 1 then { s with col := 5 }
  else if s.col = 2 then { s with col := 6 }
  else if s.col = 3 then { s with col := 7 }
  else if s.col = 4 then { s with col := 2 }
  else if s.col = 5 then { s with col := 3 }
  else if s.col = 6 then { s with col := 1 }
  else if s.col = 7 then
    if s.plane + 1 ≥ 8 then
      if s.swapFlag then
        { s with plane := 0, frontIdx := s.frontIdx ^^^ 1, swapFlag := false
                 ptr := imgAddr s (s.frontIdx ^^^ 1)
                 frames := (s.frames + 1) % 65536, col := 0 }
      else
        { s with plane := 0, ptr := imgAddr s s.frontIdx
                 frames := (s.frames + 1) % 65536, col := 0 }
    else
      { s with plane := s.plane + 1, ptr := s.ptr + 24, col := 0 }
  else s

/-- What one interrupt firing displays: the column asserted, the bit-plane
whose data is put on the drive lines, and the interval until the next
firing (the value of `OCR1A` when the handler returns). -/
structure SchedEvent where
  col : Nat
  plane : Nat
  interval : Nat
deriving DecidableEq

/-- The event of firing the interrupt in state `s`. -/
def tickEvent (s : WatchState) : SchedEvent :=
  { col := s.col, plane := s.plane, interval := (tick s).ocr }

/-- Events of `n` consecutive interrupt firings from state `s`. -/
def trace : WatchState → Nat → List SchedEvent
  | _, 0 => []
  | s, n + 1 => tickEvent s :: trace (tick s) n

/-- The 64 interrupt firings of one full frame (8 planes × 8 columns),
starting at the `col = 0, plane = 0` firing that follows reset. -/
def frameTrace : List SchedEvent :=
  trace (tick (initWatch false 0 (fun _ => 0))) 64

/-- Total effective on-time that column `cc` receives during bit-plane `k`
of the frame: programmed interval plus the interrupt's own `OVERHEAD`. -/
def planeOnTime (cc k : Nat) : Nat :=
  ((frameTrace.filter (fun e => e.col == cc && e.plane == k)).map
    (fun e => e.interval + OVERHEAD)).sum

/-- The scheduler's timer invariant: away from the `col = 0` firing that
reprograms it, `OCR1A` holds the interval of the bit-plane currently being
displayed (case `col == 0` programs it and no other case touches it). -/
def schedInv (s : WatchState) : Prop :=
  s.col ≠ 0 → s.ocr = (LEDMINTIME <<< s.plane) - OVERHEAD

/-- `memcpy(dst, src, n)` on the byte memory. -/
def memcpyMem (mem : Nat → Nat) (dst src n : Nat) : Nat → Nat :=
  fun i => if dst ≤ i ∧ i < dst + n then mem (src + (i - dst)) else mem i

/-- The busy wait `for(swapFlag = true; swapFlag; );` of
`Watch::swapBuffers`, with the refresh interrupt firing while the caller
spins; `fuel` bounds the wait (one frame is at most 64 firings). -/
def waitClear : Nat → WatchState → WatchState
  | 0, s => s
  | n + 1, s => if s.swapFlag then waitClear n (tick s) else s

/-- `Watch::swapBuffers(copy)`: request the swap, wait for the interrupt to
commit it, then if `copy` do `memcpy(img[1 - frontIdx], img[frontIdx],
3*8*8)`. -/
def swapBuffers (s : WatchState) (copy : Bool) : WatchState :=
  let s1 := waitClear 130 { s with swapFlag := true }
  if copy then
    { s1 with mem := memcpyMem s1.mem (imgAddr s1 (1 - s1.frontIdx)) (imgAddr s1 s1.frontIdx) 192 }
  else s1

/-- Modelled from the spec: the `ACTION_*` codes of the missing header
`Watch.h` (spec section 6: `ActionCode ∈ {None, TapLeft, TapRight,
HoldLeft, HoldRight, HoldBoth}`). -/
inductive Action where
  | ACTION_NONE
  | ACTION_TAP_LEFT
  | ACTION_TAP_RIGHT
  | ACTION_HOLD_LEFT
  | ACTION_HOLD_RIGHT
  | ACTION_HOLD_BOTH
deriving DecidableEq

export Action (ACTION_NONE ACTION_TAP_LEFT ACTION_TAP_RIGHT ACTION_HOLD_LEFT
  ACTION_HOLD_RIGHT ACTION_HOLD_BOTH)

/-- The button machine's state: `bSave`, `bCount`, `bAction` of `Watch.cpp`
plus whether the Timer2 overflow interrupt is enabled (`TIMSK2 & TOIE2`). -/
structure ButtonState where
  bSave : Nat
  bCount : Nat
  bAction : Action
  t2en : Bool
deriving DecidableEq

/-- Button state after `Watch::begin()`: `bSave = _BV(PORTD3) | _BV(PORTD2)`
(both released, 0x08 | 0x04 = 12), counter clear, no pending action, Timer2
interrupt not enabled. -/
def initButtons : ButtonState :=
  { bSave := 12, bCount := 0, bAction := ACTION_NONE, t2en := false }

/-- `ISR(INT0_vect)` (also aliased to INT1): `b = PIND & 0b1100`; on full
release stop Timer2 and classify a tap if past the debounce threshold; on a
changed press clear the counter and enable Timer2; an unchanged mask
returns early. -/
def int0 (s : ButtonState) (pind : Nat) : ButtonState :=
  let b := pind &&& 12
  if b = 12 then
    { s with t2en := false
             bAction :=
               if s.bCount > 2 then
                 if s.bSave = 8 then ACTION_TAP_LEFT
                 else if s.bSave = 4 then ACTION_TAP_RIGHT
                 else s.bAction
               else s.bAction
             bSave := b }
  else if b = s.bSave then s
  else { s with bCount := 0, t2en := true, bSave := b }

/-- `ISR(TIMER2_OVF_vect)`: at the hold threshold stop the interrupt, emit
the hold action for the buttons currently down and clear `bSave`/`bCount`;
otherwise keep counting. -/
def t2ov (s : ButtonState) : ButtonState :=
  if s.bCount ≥ 76 then
    { s with t2en := false
             bAction :=
               if s.bSave = 8 then ACTION_HOLD_LEFT
               else if s.bSave = 4 then ACTION_HOLD_RIGHT
               else if s.bSave = 0 then ACTION_HOLD_BOTH
               else s.bAction
             bSave := 0, bCount := 0 }
  else { s with bCount := s.bCount + 1 }

/-- External stimuli to the button machine: a pin-change interrupt with the
current `PIND` value, or a Timer2 overflow (which only runs its handler
while the overflow interrupt is enabled). -/
inductive BEvent where
  | edge (pind : Nat)
  | tovf
deriving DecidableEq

/-- One stimulus step. -/
def bstep (s : ButtonState) : BEvent → ButtonState
  | .edge p => int0 s p
  | .tovf => if s.t2en then t2ov s else s

/-- Run a sequence of stimuli. -/
def runEvents (s : ButtonState) (l : List BEvent) : ButtonState :=
  l.foldl bstep s

/-- The action, if any, that a stimulus assigns to `bAction` (the branches
of the two handlers that write `bAction`). -/
def emitted (s : ButtonState) : BEvent → Option Action
  | .edge p =>
      let b := p &&& 12
      if b = 12 then
        if s.bCount > 2 then
          if s.bSave = 8 then some ACTION_TAP_LEFT
          else if s.bSave = 4 then some ACTION_TAP_RIGHT
          else none
        else none
      else none
  | .tovf =>
      if s.t2en ∧ s.bCount ≥ 76 then
        if s.bSave = 8 then some ACTION_HOLD_LEFT
        else if s.bSave = 4 then some ACTION_HOLD_RIGHT
        else if s.bSave = 0 then some ACTION_HOLD_BOTH
        else none
      else none

/-- All actions a stimulus sequence emits, in order. -/
def emissions : ButtonState → List BEvent → List Action
  | _, [] => []
  | s, e :: es => (emitted s e).toList ++ emissions (bstep s e) es

/-- `Watch::action()`: return the pending action and clear it. -/
def pollAction (s : ButtonState) : Action × ButtonState :=
  (s.bAction, { s with bAction := ACTION_NONE })

/-- The button scenario traces used by the tap/hold claims: press with mask
`p`, let Timer2 overflow `t` times, release. -/
def pressHoldRelease (p t : Nat) : List BEvent :=
  BEvent.edge p :: (List.replicate t BEvent.tovf ++ [BEvent.edge 12])

/-- The hold action the overflow handler assigns for last-seen mask `p`. -/
def holdActionFor (p : Nat) : Action :=
  if p = 8 then ACTION_HOLD_LEFT else if p = 4 then ACTION_HOLD_RIGHT else ACTION_HOLD_BOTH

/-- The tap action the release path assigns for last-seen mask `p`. -/
def tapActionFor (p : Nat) : Action :=
  if p = 8 then ACTION_TAP_LEFT else ACTION_TAP_RIGHT

/-! ### Bitwise helper lemmas -/

theorem testBit_255 (i : Nat) (hi : i < 8) : Nat.testBit 255 i = true := by
  interval_cases i <;> decide

theorem testBit_false_of_lt_256 (m i : Nat) (hm : m < 256) (hi : 8 ≤ i) :
    m.testBit i = false := by
  apply Nat.testBit_lt_two_pow
  calc m < 256 := hm
    _ ≤ 2 ^ i := by
        calc (256 : Nat) = 2 ^ 8 := by norm_num
          _ ≤ 2 ^ i := Nat.pow_le_pow_right (by norm_num) hi

theorem lor_land_self (b m : Nat) : (b ||| m) &&& m = m := by
  apply Nat.eq_of_testBit_eq
  intro i
  rw [Nat.testBit_and, Nat.testBit_or]
  cases hm : m.testBit i <;> simp

theorem land_notmask (b m : Nat) (hm : m < 256) : (b &&& (255 ^^^ m)) &&& m = 0 := by
  apply Nat.eq_of_testBit_eq
  intro i
  rw [Nat.testBit_and, Nat.testBit_and, Nat.testBit_xor, Nat.zero_testBit]
  by_cases hi : i < 8
  · rw [testBit_255 i hi]
    cases hmi : m.testBit i <;> simp
  · rw [testBit_false_of_lt_256 m i hm (le_of_not_lt hi)]
    simp

theorem lor_land_disjoint (b m m2 : Nat) (h : m &&& m2 = 0) :
    (b ||| m) &&& m2 = b &&& m2 := by
  apply Nat.eq_of_testBit_eq
  intro i
  have hh : (m.testBit i && m2.testBit i) = false := by
    have h2 := congrArg (fun n => Nat.testBit n i) h
    simpa [Nat.testBit_and] using h2
  rw [Nat.testBit_and, Nat.testBit_or, Nat.testBit_and]
  cases h2 : m2.testBit i
  · simp
  · have hm : m.testBit i = false := by simpa [h2] using hh
    simp [hm]

theorem landnot_land_disjoint (b m m2 : Nat) (h : m &&& m2 = 0) (hm2 : m2 < 256) :
    (b &&& (255 ^^^ m)) &&& m2 = b &&& m2 := by
  apply Nat.eq_of_testBit_eq
  intro i
  have hh : (m.testBit i && m2.testBit i) = false := by
    have h2 := congrArg (fun n => Nat.testBit n i) h
    simpa [Nat.testBit_and] using h2
  rw [Nat.testBit_and, Nat.testBit_and, Nat.testBit_xor, Nat.testBit_and]
  cases h2 : m2.testBit i
  · simp
  · have hm : m.testBit i = false := by simpa [h2] using hh
    have hi : i < 8 := by
      by_contra hi
      rw [testBit_false_of_lt_256 m2 i hm2 (le_of_not_lt hi)] at h2
      exact Bool.false_ne_true h2
    rw [testBit_255 i hi, hm]
    simp

theorem lor_testBit_keep (b m i : Nat) (h : m.testBit i = false) :
    (b ||| m).testBit i = b.testBit i := by
  rw [Nat.testBit_or, h]
  simp

theorem landnot_testBit_keep (b m i : Nat) (h : m.testBit i = false) (hi : i < 8) :
    (b &&& (255 ^^^ m)).testBit i = b.testBit i := by
  rw [Nat.testBit_and, Nat.testBit_xor, h, testBit_255 i hi]
  simp

/-! ### Where `drawPixel` writes -/

theorem writeGroup_notouch (bm cm dm : Nat) (onb : Bool) (base : Nat) (buf : Nat → Nat)
    (i : Nat) (h0 : i ≠ base) (h1 : i ≠ base + 1) (h2 : i ≠ base + 2) :
    writeGroup bm cm dm onb base buf i = buf i := by
  simp [writeGroup, updByte, h0, h1, h2]

theorem writeGroup_byte0 (bm cm dm : Nat) (onb : Bool) (base : Nat) (buf : Nat → Nat) :
    writeGroup bm cm dm onb base buf base =
      if onb then buf base ||| bm else buf base &&& (255 ^^^ bm) := by
  have h1 : base ≠ base + 1 := by omega
  have h2 : base ≠ base + 2 := by omega
  simp [writeGroup, updByte, h1, h2]

theorem writeGroup_byte1 (bm cm dm : Nat) (onb : Bool) (base : Nat) (buf : Nat → Nat) :
    writeGroup bm cm dm onb base buf (base + 1) =
      if onb then buf (base + 1) ||| cm else buf (base + 1) &&& (255 ^^^ cm) := by
  have h2 : base + 1 ≠ base + 2 := by omega
  simp [writeGroup, updByte, h2]

theorem writeGroup_byte2 (bm cm dm : Nat) (onb : Bool) (base : Nat) (buf : Nat → Nat) :
    writeGroup bm cm dm onb base buf (base + 2) =
      if onb then buf (base + 2) ||| dm else buf (base + 2) &&& (255 ^^^ dm) := by
  simp [writeGroup, updByte]

theorem planeFold_notouch (a yn bm cm dm c8 : Nat) (ks : List Nat) (buf : Nat → Nat)
    (i : Nat) (h : ∀ k ∈ ks, i < a + 3 * yn + 24 * k ∨ a + 3 * yn + 24 * k + 2 < i) :
    planeFold a yn bm cm dm c8 ks buf i = buf i := by
  induction ks generalizing buf with
  | nil => rfl
  | cons k ks ih =>
      have hk := h k (List.mem_cons_self k ks)
      simp only [planeFold, List.foldl_cons]
      rw [show List.foldl _ _ ks = planeFold a yn bm cm dm c8 ks
            (writeGroup bm cm dm (c8.testBit k) (a + 3 * yn + 24 * k) buf) from rfl]
      rw [ih _ (fun k2 hk2 => h k2 (List.mem_cons_of_mem _ hk2))]
      exact writeGroup_notouch _ _ _ _ _ _ _ (by omega) (by omega) (by omega)

theorem planeFold_append (a yn bm cm dm c8 : Nat) (l1 l2 : List Nat) (buf : Nat → Nat) :
    planeFold a yn bm cm dm c8 (l1 ++ l2) buf =
      planeFold a yn bm cm dm c8 l2 (planeFold a yn bm cm dm c8 l1 buf) := by
  simp only [planeFold, List.foldl_append]

theorem planeFold_byte (a yn bm cm dm c8 k g : Nat) (buf : Nat → Nat)
    (hk : k < 8) (hg : g < 3) :
    planeFold a yn bm cm dm c8 (List.range 8) buf (a + 3 * yn + 24 * k + g) =
      writeGroup bm cm dm (c8.testBit k) (a + 3 * yn + 24 * k) buf (a + 3 * yn + 24 * k + g) := by
  have h8 : (8 : Nat) = (k + 1) + (7 - k) := by omega
  rw [h8, List.range_add, planeFold_append]
  rw [planeFold_notouch]
  · rw [List.range_succ, planeFold_append]
    have hpre : ∀ j, j < 3 →
        planeFold a yn bm cm dm c8 (List.range k) buf (a + 3 * yn + 24 * k + j) =
          buf (a + 3 * yn + 24 * k + j) := by
      intro j hj
      apply planeFold_notouch
      intro k2 hk2
      have : k2 < k := List.mem_range.mp hk2
      right; omega
    have h0 := hpre 0 (by omega)
    have h1 := hpre 1 (by omega)
    have h2 := hpre 2 (by omega)
    rw [Nat.add_zero] at h0
    interval_cases g
    · rw [Nat.add_zero]
      rw [show planeFold a yn bm cm dm c8 [k] (planeFold a yn bm cm dm c8 (List.range k) buf) =
            writeGroup bm cm dm (c8.testBit k) (a + 3 * yn + 24 * k)
              (planeFold a yn bm cm dm c8 (List.range k) buf) from rfl]
      rw [writeGroup_byte0, writeGroup_byte0, h0]
    · rw [show a + 3 * yn + 24 * k + 1 = (a + 3 * yn + 24 * k) + 1 from rfl]
      rw [show planeFold a yn bm cm dm c8 [k] (planeFold a yn bm cm dm c8 (List.range k) buf) =
            writeGroup bm cm dm (c8.testBit k) (a + 3 * yn + 24 * k)
              (planeFold a yn bm cm dm c8 (List.range k) buf) from rfl]
      rw [writeGroup_byte1, writeGroup_byte1, h1]
    · rw [show planeFold a yn bm cm dm c8 [k] (planeFold a yn bm cm dm c8 (List.range k) buf) =
            writeGroup bm cm dm (c8.testBit k) (a + 3 * yn + 24 * k)
              (planeFold a yn bm cm dm c8 (List.range k) buf) from rfl]
      rw [writeGroup_byte2, writeGroup_byte2, h2]
  · intro k2 hk2
    simp only [List.mem_map, List.mem_range] at hk2
    obtain ⟨j, hj, rfl⟩ := hk2
    left; omega

/-! ### Facts about the drive-bit tables -/

theorem masksB_lt : ∀ x < 8, rowBitPortB x < 256 :=
  @of_decide_eq_true _ (Nat.decidableBallLT _ _) rfl

theorem masksC_lt : ∀ x < 8, rowBitPortC x < 256 :=
  @of_decide_eq_true _ (Nat.decidableBallLT _ _) rfl

theorem masksD_lt : ∀ x < 8, rowBitPortD x < 256 :=
  @of_decide_eq_true _ (Nat.decidableBallLT _ _) rfl

theorem masks_cover : ∀ x < 8,
    rowBitPortB x ≠ 0 ∨ rowBitPortC x ≠ 0 ∨ rowBitPortD x ≠ 0 :=
  @of_decide_eq_true _ (Nat.decidableBallLT _ _) rfl

theorem masks_disjoint (x x2 : Nat) (hx : x < 8) (hx2 : x2 < 8) (hne : x ≠ x2) :
    rowBitPortB x &&& rowBitPortB x2 = 0 ∧ rowBitPortC x &&& rowBitPortC x2 = 0
      ∧ rowBitPortD x &&& rowBitPortD x2 = 0 := by
  interval_cases x <;> interval_cases x2 <;> first | exact absurd rfl hne | decide

/-! ### Read-back of a freshly drawn pixel -/

theorem readBit_planeFold (buf : Nat → Nat) (a yn xn c8 k : Nat) (hx : xn < 8) (hk : k < 8) :
    readBit (planeFold a yn (rowBitPortB xn) (rowBitPortC xn) (rowBitPortD xn) c8
        (List.range 8) buf) a xn yn k = c8.testBit k := by
  have e0 := planeFold_byte a yn (rowBitPortB xn) (rowBitPortC xn) (rowBitPortD xn)
    c8 k 0 buf hk (by omega)
  have e1 := planeFold_byte a yn (rowBitPortB xn) (rowBitPortC xn) (rowBitPortD xn)
    c8 k 1 buf hk (by omega)
  have e2 := planeFold_byte a yn (rowBitPortB xn) (rowBitPortC xn) (rowBitPortD xn)
    c8 k 2 buf hk (by omega)
  rw [Nat.add_zero] at e0
  rw [writeGroup_byte0] at e0
  rw [writeGroup_byte1] at e1
  rw [writeGroup_byte2] at e2
  unfold readBit
  rw [e0, e1, e2]
  cases hOn : c8.testBit k
  · simp only [Bool.false_eq_true, if_false]
    rw [land_notmask _ _ (masksB_lt xn hx), land_notmask _ _ (masksC_lt xn hx),
      land_notmask _ _ (masksD_lt xn hx)]
    simp
  · simp only [if_true]
    rw [lor_land_self, lor_land_self, lor_land_self]
    rcases masks_cover xn hx with h | h | h <;> simp [h]

theorem foldl_congr_fun {α β : Type} (l : List α) (f g : β → α → β) (b : β)
    (h : ∀ x a, a ∈ l → f x a = g x a) : l.foldl f b = l.foldl g b := by
  induction l generalizing b with
  | nil => rfl
  | cons a l ih =>
      simp only [List.foldl_cons]
      rw [h b a (List.mem_cons_self a l)]
      exact ih _ (fun x a2 ha => h x a2 (List.mem_cons_of_mem _ ha))

set_option maxRecDepth 8192 in
theorem sumBits : ∀ c8 < 256,
    (List.range 8).foldl (fun acc k => acc + (if Nat.testBit c8 k then 2 ^ k else 0)) 0 = c8 :=
  @of_decide_eq_true _ (Nat.decidableBallLT _ _) rfl

theorem readPixel_planeFold (buf : Nat → Nat) (a yn xn c8 : Nat)
    (hx : xn < 8) (hc8 : c8 < 256) :
    readPixel (planeFold a yn (rowBitPortB xn) (rowBitPortC xn) (rowBitPortD xn) c8
        (List.range 8) buf) a xn yn = c8 := by
  have hfun : ∀ (x k : Nat), k ∈ List.range 8 →
      x + (if readBit (planeFold a yn (rowBitPortB xn) (rowBitPortC xn) (rowBitPortD xn)
            c8 (List.range 8) buf) a xn yn k then 2 ^ k else 0)
        = x + (if c8.testBit k then 2 ^ k else 0) := by
    intro x k hk
    rw [readBit_planeFold buf a yn xn c8 k hx (List.mem_range.mp hk)]
  unfold readPixel
  exact (foldl_congr_fun (List.range 8) _ _ 0 hfun).trans (sumBits c8 hc8)

/-! ### Claim C1 -/

/-- C1: round-trip of the bit-plane encoding.  For every in-range `(x, y)`
and every intensity in `[0, 255]`, after `drawPixel(x, y, intensity)`
writes into the back buffer (at address `a`), the 8-bit number whose bit
`k` is the state of pixel `(x, y)`'s drive-line bit in the plane-`k` bytes
of that buffer is exactly the original intensity. -/
theorem C1_bitplane_roundtrip (buf : Nat → Nat) (a : Nat) (x y : Int) (c : Nat)
    (hx0 : 0 ≤ x) (hx8 : x < 8) (hy0 : 0 ≤ y) (hy8 : y < 8) (hc : c < 256) :
    readPixel (drawPixelMem buf a x y c) a x.toNat y.toNat = c := by
  unfold drawPixelMem
  rw [if_pos ⟨hx0, hy0, hx8, hy8⟩]
  have hxn : x.toNat < 8 := by omega
  have h := readPixel_planeFold buf a y.toNat x.toNat (c % 256) hxn
    (Nat.mod_lt _ (by norm_num))
  rw [h, Nat.mod_eq_of_lt hc]

/-- Witness for C1 at `x = 3`, `y = 5`, intensity 173, over an all-zero
memory. -/
theorem C1_witness :
    ((0 : Int) ≤ 3 ∧ (3 : Int) < 8 ∧ (0 : Int) ≤ 5 ∧ (5 : Int) < 8 ∧ 173 < 256)
    ∧ readPixel (drawPixelMem (fun _ => 0) 0 3 5 173) 0 (Int.toNat 3) (Int.toNat 5) = 173 :=
  ⟨by norm_num,
   C1_bitplane_roundtrip (fun _ => 0) 0 3 5 173 (by norm_num) (by norm_num)
     (by norm_num) (by norm_num) (by norm_num)⟩

/-! ### Claim C7 -/

/-- C7: for every coordinate pair outside `[0,7] × [0,7]` and every
intensity, `drawPixel` returns without signalling anything and leaves the
whole state — in particular every byte of both pixel buffers — unchanged. -/
theorem C7_out_of_range (s : WatchState) (x y : Int) (c : Nat)
    (h : x < 0 ∨ y < 0 ∨ 7 < x ∨ 7 < y) :
    s.drawPixel x y c = s := by
  unfold WatchState.drawPixel drawPixelMem
  rw [if_neg (by omega)]

/-- Witness for C7 at `x = -1`. -/
theorem C7_witness :
    ((-1 : Int) < 0 ∨ (0 : Int) < 0 ∨ 7 < (-1 : Int) ∨ 7 < (0 : Int))
    ∧ (initWatch true 0 (fun _ => 0)).drawPixel (-1) 0 255 = initWatch true 0 (fun _ => 0) :=
  ⟨Or.inl (by norm_num), C7_out_of_range _ _ _ _ (Or.inl (by norm_num))⟩

/-! ### Claim C10 -/

theorem readBit_planeFold_other (buf : Nat → Nat) (a yn xn x2 c8 k : Nat)
    (hx : xn < 8) (hx2 : x2 < 8) (hne : x2 ≠ xn) (hk : k < 8) :
    readBit (planeFold a yn (rowBitPortB xn) (rowBitPortC xn) (rowBitPortD xn) c8
        (List.range 8) buf) a x2 yn k = readBit buf a x2 yn k := by
  have e0 := planeFold_byte a yn (rowBitPortB xn) (rowBitPortC xn) (rowBitPortD xn)
    c8 k 0 buf hk (by omega)
  have e1 := planeFold_byte a yn (rowBitPortB xn) (rowBitPortC xn) (rowBitPortD xn)
    c8 k 1 buf hk (by omega)
  have e2 := planeFold_byte a yn (rowBitPortB xn) (rowBitPortC xn) (rowBitPortD xn)
    c8 k 2 buf hk (by omega)
  rw [Nat.add_zero] at e0
  rw [writeGroup_byte0] at e0
  rw [writeGroup_byte1] at e1
  rw [writeGroup_byte2] at e2
  obtain ⟨hB, hC, hD⟩ := masks_disjoint xn x2 hx hx2 (Ne.symm hne)
  unfold readBit
  rw [e0, e1, e2]
  cases hOn : c8.testBit k
  · simp only [Bool.false_eq_true, if_false]
    rw [landnot_land_disjoint _ _ _ hB (masksB_lt x2 hx2),
      landnot_land_disjoint _ _ _ hC (masksC_lt x2 hx2),
      landnot_land_disjoint _ _ _ hD (masksD_lt x2 hx2)]
  · simp only [if_true]
    rw [lor_land_disjoint _ _ _ hB, lor_land_disjoint _ _ _ hC, lor_land_disjoint _ _ _ hD]

/-- C10 (implicit): pixel isolation.  For every `x` in `[0,7]` exactly one
of the three per-port drive-bit tables holds a nonzero mask (and that mask
is a single bit), so an in-range `drawPixel(x, y, intensity)` changes at
most that one bit in each of row `y`'s plane bytes and leaves the decoded
intensity of every pixel other than `(x, y)` unchanged. -/
theorem C10_pixel_isolation :
    (∀ x < 8,
      (((if rowBitPortB x ≠ 0 then 1 else 0) + (if rowBitPortC x ≠ 0 then 1 else 0)
        + (if rowBitPortD x ≠ 0 then 1 else 0) : Nat) = 1)
      ∧ ∃ i < 8, rowBitPortB x ||| rowBitPortC x ||| rowBitPortD x = 2 ^ i)
    ∧ (∀ (buf : Nat → Nat) (a : Nat) (x y : Int) (x2 y2 c : Nat),
        0 ≤ x → x < 8 → 0 ≤ y → y < 8 → x2 < 8 → y2 < 8 →
        (x2, y2) ≠ (x.toNat, y.toNat) →
        readPixel (drawPixelMem buf a x y c) a x2 y2 = readPixel buf a x2 y2)
    ∧ (∀ (buf : Nat → Nat) (a : Nat) (x y : Int) (c k g i : Nat),
        0 ≤ x → x < 8 → 0 ≤ y → y < 8 → k < 8 → g < 3 → i < 8 →
        Nat.testBit (groupMask g x.toNat) i = false →
        Nat.testBit (drawPixelMem buf a x y c (a + 3 * y.toNat + 24 * k + g)) i
          = Nat.testBit (buf (a + 3 * y.toNat + 24 * k + g)) i) := by
  refine ⟨@of_decide_eq_true _ (Nat.decidableBallLT _ _) rfl, ?_, ?_⟩
  · intro buf a x y x2 y2 c hx0 hx8 hy0 hy8 hx2 hy2 hne
    unfold drawPixelMem
    rw [if_pos ⟨hx0, hy0, hx8, hy8⟩]
    unfold readPixel
    apply foldl_congr_fun
    intro acc k hk
    have hk8 := List.mem_range.mp hk
    by_cases hyy : y2 = y.toNat
    · subst hyy
      have hxne : x2 ≠ x.toNat := by
        intro h
        exact hne (Prod.ext h rfl)
      rw [readBit_planeFold_other buf a y.toNat x.toNat x2 (c % 256) k (by omega) hx2 hxne hk8]
    · have n0 := planeFold_notouch a y.toNat (rowBitPortB x.toNat) (rowBitPortC x.toNat)
        (rowBitPortD x.toNat) (c % 256) (List.range 8) buf (a + 3 * y2 + 24 * k)
        (by intro k2 hk2; have := List.mem_range.mp hk2; omega)
      have n1 := planeFold_notouch a y.toNat (rowBitPortB x.toNat) (rowBitPortC x.toNat)
        (rowBitPortD x.toNat) (c % 256) (List.range 8) buf (a + 3 * y2 + 24 * k + 1)
        (by intro k2 hk2; have := List.mem_range.mp hk2; omega)
      have n2 := planeFold_notouch a y.toNat (rowBitPortB x.toNat) (rowBitPortC x.toNat)
        (rowBitPortD x.toNat) (c % 256) (List.range 8) buf (a + 3 * y2 + 24 * k + 2)
        (by intro k2 hk2; have := List.mem_range.mp hk2; omega)
      unfold readBit
      rw [n0, n1, n2]
  · intro buf a x y c k g i hx0 hx8 hy0 hy8 hk hg hi hbit
    unfold drawPixelMem
    rw [if_pos ⟨hx0, hy0, hx8, hy8⟩]
    rw [planeFold_byte a y.toNat (rowBitPortB x.toNat) (rowBitPortC x.toNat)
      (rowBitPortD x.toNat) (c % 256) k g buf hk hg]
    interval_cases g
    · simp only [groupMask, if_pos rfl] at hbit
      rw [Nat.add_zero, writeGroup_byte0]
      cases hOn : (c % 256).testBit k
      · simp only [Bool.false_eq_true, if_false]
        exact landnot_testBit_keep _ _ _ hbit hi
      · simp only [if_true]
        exact lor_testBit_keep _ _ _ hbit
    · simp only [groupMask] at hbit
      norm_num at hbit
      rw [writeGroup_byte1]
      cases hOn : (c % 256).testBit k
      · simp only [Bool.false_eq_true, if_false]
        exact landnot_testBit_keep _ _ _ hbit hi
      · simp only [if_true]
        exact lor_testBit_keep _ _ _ hbit
    · simp only [groupMask] at hbit
      norm_num at hbit
      rw [writeGroup_byte2]
      cases hOn : (c % 256).testBit k
      · simp only [Bool.false_eq_true, if_false]
        exact landnot_testBit_keep _ _ _ hbit hi
      · simp only [if_true]
        exact lor_testBit_keep _ _ _ hbit

/-- Witness for C10: the count at `x = 4`, and isolation of pixel `(3, 2)`
from a draw at `(2, 2)`. -/
theorem C10_witness :
    ((((if rowBitPortB 4 ≠ 0 then 1 else 0) + (if rowBitPortC 4 ≠ 0 then 1 else 0)
        + (if rowBitPortD 4 ≠ 0 then 1 else 0) : Nat) = 1)
      ∧ ∃ i < 8, rowBitPortB 4 ||| rowBitPortC 4 ||| rowBitPortD 4 = 2 ^ i)
    ∧ readPixel (drawPixelMem (fun _ => 0) 0 2 2 200) 0 3 2 = readPixel (fun _ => 0) 0 3 2 :=
  ⟨C10_pixel_isolation.1 4 (by norm_num),
   C10_pixel_isolation.2.1 (fun _ => 0) 0 2 2 3 2 200 (by norm_num) (by norm_num)
     (by norm_num) (by norm_num) (by norm_num) (by norm_num) (by decide)⟩

/-! ### Case equations for the refresh interrupt -/

theorem tick_col0 (s : WatchState) (h : s.col = 0) :
    tick s = { s with ocr := (LEDMINTIME <<< s.plane) - OVERHEAD, col := 4 } := by
  unfold tick
  rw [if_pos h]

theorem tick_col1 (s : WatchState) (h : s.col = 1) : tick s = { s with col := 5 } := by
  unfold tick
  rw [h]
  norm_num

theorem tick_col2 (s : WatchState) (h : s.col = 2) : tick s = { s with col := 6 } := by
  unfold tick
  rw [h]
  norm_num

theorem tick_col3 (s : WatchState) (h : s.col = 3) : tick s = { s with col := 7 } := by
  unfold tick
  rw [h]
  norm_num

theorem tick_col4 (s : WatchState) (h : s.col = 4) : tick s = { s with col := 2 } := by
  unfold tick
  rw [h]
  norm_num

theorem tick_col5 (s : WatchState) (h : s.col = 5) : tick s = { s with col := 3 } := by
  unfold tick
  rw [h]
  norm_num

theorem tick_col6 (s : WatchState) (h : s.col = 6) : tick s = { s with col := 1 } := by
  unfold tick
  rw [h]
  norm_num

theorem tick_col7_wrap_flag (s : WatchState) (h : s.col = 7) (hp : s.plane + 1 ≥ 8)
    (hf : s.swapFlag = true) :
    tick s = { s with plane := 0, frontIdx := s.frontIdx ^^^ 1, swapFlag := false
                      ptr := imgAddr s (s.frontIdx ^^^ 1)
                      frames := (s.frames + 1) % 65536, col := 0 } := by
  have hn : s.col ≠ 0 ∧ s.col ≠ 1 ∧ s.col ≠ 2 ∧ s.col ≠ 3 ∧ s.col ≠ 4 ∧ s.col ≠ 5
      ∧ s.col ≠ 6 := by omega
  obtain ⟨h0, h1, h2, h3, h4, h5, h6⟩ := hn
  unfold tick
  rw [if_neg h0, if_neg h1, if_neg h2, if_neg h3, if_neg h4, if_neg h5, if_neg h6,
    if_pos h, if_pos hp, if_pos hf]

theorem tick_col7_wrap_noflag (s : WatchState) (h : s.col = 7) (hp : s.plane + 1 ≥ 8)
    (hf : s.swapFlag = false) :
    tick s = { s with plane := 0, ptr := imgAddr s s.frontIdx
                      frames := (s.frames + 1) % 65536, col := 0 } := by
  have hn : s.col ≠ 0 ∧ s.col ≠ 1 ∧ s.col ≠ 2 ∧ s.col ≠ 3 ∧ s.col ≠ 4 ∧ s.col ≠ 5
      ∧ s.col ≠ 6 := by omega
  obtain ⟨h0, h1, h2, h3, h4, h5, h6⟩ := hn
  unfold tick
  rw [if_neg h0, if_neg h1, if_neg h2, if_neg h3, if_neg h4, if_neg h5, if_neg h6,
    if_pos h, if_pos hp, if_neg (by rw [hf]; exact Bool.false_ne_true)]

theorem tick_col7_nowrap (s : WatchState) (h : s.col = 7) (hp : ¬s.plane + 1 ≥ 8) :
    tick s = { s with plane := s.plane + 1, ptr := s.ptr + 24, col := 0 } := by
  have hn : s.col ≠ 0 ∧ s.col ≠ 1 ∧ s.col ≠ 2 ∧ s.col ≠ 3 ∧ s.col ≠ 4 ∧ s.col ≠ 5
      ∧ s.col ≠ 6 := by omega
  obtain ⟨h0, h1, h2, h3, h4, h5, h6⟩ := hn
  unfold tick
  rw [if_neg h0, if_neg h1, if_neg h2, if_neg h3, if_neg h4, if_neg h5, if_neg h6,
    if_pos h, if_neg hp]

theorem tick_default (s : WatchState) (h : 8 ≤ s.col) : tick s = s := by
  have h0 : s.col ≠ 0 := by omega
  have h1 : s.col ≠ 1 := by omega
  have h2 : s.col ≠ 2 := by omega
  have h3 : s.col ≠ 3 := by omega
  have h4 : s.col ≠ 4 := by omega
  have h5 : s.col ≠ 5 := by omega
  have h6 : s.col ≠ 6 := by omega
  have h7 : s.col ≠ 7 := by omega
  unfold tick
  rw [if_neg h0, if_neg h1, if_neg h2, if_neg h3, if_neg h4, if_neg h5, if_neg h6, if_neg h7]

/-- The fields of `WatchState` that the interrupt never writes. -/
theorem tick_preserves (s : WatchState) :
    (tick s).dbuf = s.dbuf ∧ (tick s).base = s.base ∧ (tick s).mem = s.mem := by
  have hcol : s.col = 0 ∨ s.col = 1 ∨ s.col = 2 ∨ s.col = 3 ∨ s.col = 4 ∨ s.col = 5
      ∨ s.col = 6 ∨ s.col = 7 ∨ 8 ≤ s.col := by omega
  rcases hcol with h | h | h | h | h | h | h | h | h
  · rw [tick_col0 s h]; exact ⟨rfl, rfl, rfl⟩
  · rw [tick_col1 s h]; exact ⟨rfl, rfl, rfl⟩
  · rw [tick_col2 s h]; exact ⟨rfl, rfl, rfl⟩
  · rw [tick_col3 s h]; exact ⟨rfl, rfl, rfl⟩
  · rw [tick_col4 s h]; exact ⟨rfl, rfl, rfl⟩
  · rw [tick_col5 s h]; exact ⟨rfl, rfl, rfl⟩
  · rw [tick_col6 s h]; exact ⟨rfl, rfl, rfl⟩
  · by_cases hp : s.plane + 1 ≥ 8
    · cases hf : s.swapFlag
      · rw [tick_col7_wrap_noflag s h hp hf]; exact ⟨rfl, rfl, rfl⟩
      · rw [tick_col7_wrap_flag s h hp hf]; exact ⟨rfl, rfl, rfl⟩
    · rw [tick_col7_nowrap s h hp]; exact ⟨rfl, rfl, rfl⟩
  · rw [tick_default s h]; exact ⟨rfl, rfl, rfl⟩

/-! ### Claim C6 -/

/-- C6 (amended): in double-buffered construction, `drawPixel` leaves every
byte of the front (displayed) buffer unchanged; the write lands only in the
disjoint back buffer.  (In single-buffered construction, front and back are
the same memory — see the counterexample.) -/
theorem C6_front_unchanged (s : WatchState) (x y : Int) (c : Nat) (j : Nat)
    (hd : s.dbuf = true) (hj : j < 192) :
    (s.drawPixel x y c).mem (imgAddr s s.frontIdx + j) = s.mem (imgAddr s s.frontIdx + j) := by
  show drawPixelMem s.mem (imgAddr s (1 - s.frontIdx)) x y c (imgAddr s s.frontIdx + j)
    = s.mem (imgAddr s s.frontIdx + j)
  unfold drawPixelMem
  by_cases hr : 0 ≤ x ∧ 0 ≤ y ∧ x < 8 ∧ y < 8
  · rw [if_pos hr]
    obtain ⟨hx0, hy0, hx8, hy8⟩ := hr
    have hyn : y.toNat < 8 := by omega
    apply planeFold_notouch
    intro k hk
    have hk8 := List.mem_range.mp hk
    by_cases hf : s.frontIdx = 0
    · have h1 : imgAddr s s.frontIdx = s.base := by simp [imgAddr, hf]
      have h2 : imgAddr s (1 - s.frontIdx) = s.base + 192 := by simp [imgAddr, hf, hd]
      rw [h1, h2]
      omega
    · have h1 : imgAddr s s.frontIdx = s.base + 192 := by simp [imgAddr, hf, hd]
      have hfi : 1 - s.frontIdx = 0 := by omega
      have h2 : imgAddr s (1 - s.frontIdx) = s.base := by simp [imgAddr, hfi]
      rw [h1, h2]
      omega
  · rw [if_neg hr]

/-- Counterexample to C6 as stated: in single-buffered construction,
`img[1]` aliases `img[0]`, so `drawPixel(0, 0, 255)` changes a byte of the
front (displayed) buffer (offset 2, the PORTD byte of row 0, plane 0, goes
from `PORTD_OFF` to `PORTD_OFF | 0x10`). -/
theorem C6_counterexample :
    ((initWatch false 0 (fun _ => 0)).drawPixel 0 0 255).mem
        (imgAddr (initWatch false 0 (fun _ => 0)) (initWatch false 0 (fun _ => 0)).frontIdx + 2)
      ≠ (initWatch false 0 (fun _ => 0)).mem
        (imgAddr (initWatch false 0 (fun _ => 0)) (initWatch false 0 (fun _ => 0)).frontIdx + 2) := by
  decide

/-- Witness for C6 at the double-buffered initial state, `j = 0`. -/
theorem C6_witness :
    ((initWatch true 0 (fun _ => 0)).dbuf = true ∧ (0 : Nat) < 192)
    ∧ ((initWatch true 0 (fun _ => 0)).drawPixel 0 0 255).mem
        (imgAddr (initWatch true 0 (fun _ => 0)) (initWatch true 0 (fun _ => 0)).frontIdx + 0)
      = (initWatch true 0 (fun _ => 0)).mem
        (imgAddr (initWatch true 0 (fun _ => 0)) (initWatch true 0 (fun _ => 0)).frontIdx + 0) :=
  ⟨⟨rfl, by norm_num⟩, C6_front_unchanged _ 0 0 255 0 rfl (by norm_num)⟩

/-! ### Claim C5 -/

theorem tick_dbuf (s : WatchState) : (tick s).dbuf = s.dbuf :=
  (tick_preserves s).1

theorem waitClear_dbuf (n : Nat) (s : WatchState) : (waitClear n s).dbuf = s.dbuf := by
  induction n generalizing s with
  | zero => rfl
  | succ n ih =>
      unfold waitClear
      split_ifs
      · rw [ih, tick_dbuf]
      · rfl

theorem memcpyMem_in (mem : Nat → Nat) (dst src n i : Nat) (h1 : dst ≤ i)
    (h2 : i < dst + n) : memcpyMem mem dst src n i = mem (src + (i - dst)) := by
  unfold memcpyMem
  rw [if_pos ⟨h1, h2⟩]

theorem memcpyMem_out (mem : Nat → Nat) (dst src n i : Nat)
    (h : ¬(dst ≤ i ∧ i < dst + n)) : memcpyMem mem dst src n i = mem i := by
  unfold memcpyMem
  rw [if_neg h]

theorem memcpy_back_eq_front (s1 : WatchState) (hd1 : s1.dbuf = true) (j : Nat)
    (hj : j < 192) :
    memcpyMem s1.mem (imgAddr s1 (1 - s1.frontIdx)) (imgAddr s1 s1.frontIdx) 192
        (imgAddr s1 (1 - s1.frontIdx) + j)
      = memcpyMem s1.mem (imgAddr s1 (1 - s1.frontIdx)) (imgAddr s1 s1.frontIdx) 192
        (imgAddr s1 s1.frontIdx + j) := by
  by_cases hf : s1.frontIdx = 0
  · have hsrc : imgAddr s1 s1.frontIdx = s1.base := by simp [imgAddr, hf]
    have hdst : imgAddr s1 (1 - s1.frontIdx) = s1.base + 192 := by simp [imgAddr, hf, hd1]
    rw [hdst, hsrc]
    rw [memcpyMem_in s1.mem (s1.base + 192) s1.base 192 (s1.base + 192 + j) (by omega) (by omega),
      memcpyMem_out s1.mem (s1.base + 192) s1.base 192 (s1.base + j) (by omega)]
    exact congrArg s1.mem (by omega)
  · have hfi : 1 - s1.frontIdx = 0 := by omega
    have hsrc : imgAddr s1 s1.frontIdx = s1.base + 192 := by simp [imgAddr, hf, hd1]
    have hdst : imgAddr s1 (1 - s1.frontIdx) = s1.base := by simp [imgAddr, hfi]
    rw [hdst, hsrc]
    rw [memcpyMem_in s1.mem s1.base (s1.base + 192) 192 (s1.base + j) (by omega) (by omega),
      memcpyMem_out s1.mem s1.base (s1.base + 192) 192 (s1.base + 192 + j) (by omega)]
    exact congrArg s1.mem (by omega)

/-- C5: in double-buffered mode, when `swapBuffers` is called with
`copy = true`, at the moment the call returns the new back buffer is
byte-for-byte identical to the new front buffer (all 192 bytes). -/
theorem C5_copy_forward (s : WatchState) (hd : s.dbuf = true) (j : Nat) (hj : j < 192) :
    (swapBuffers s true).mem
        (imgAddr (swapBuffers s true) (1 - (swapBuffers s true).frontIdx) + j)
      = (swapBuffers s true).mem
        (imgAddr (swapBuffers s true) (swapBuffers s true).frontIdx + j) := by
  have hd1 : (waitClear 130 { s with swapFlag := true }).dbuf = true :=
    (waitClear_dbuf 130 _).trans hd
  exact memcpy_back_eq_front _ hd1 j hj

/-- Witness for C5 at the double-buffered initial state, `j = 0`. -/
theorem C5_witness :
    ((initWatch true 0 (fun _ => 0)).dbuf = true ∧ (0 : Nat) < 192)
    ∧ (swapBuffers (initWatch true 0 (fun _ => 0)) true).mem
        (imgAddr (swapBuffers (initWatch true 0 (fun _ => 0)) true)
          (1 - (swapBuffers (initWatch true 0 (fun _ => 0)) true).frontIdx) + 0)
      = (swapBuffers (initWatch true 0 (fun _ => 0)) true).mem
        (imgAddr (swapBuffers (initWatch true 0 (fun _ => 0)) true)
          (swapBuffers (initWatch true 0 (fun _ => 0)) true).frontIdx + 0) :=
  ⟨⟨rfl, by norm_num⟩, C5_copy_forward _ rfl 0 (by norm_num)⟩

/-! ### Claim C3 -/

/-- C3: the deferred swap is committed only at the frame boundary.  At the
wrap step (`col = 7`, `plane = 7`): the Frame Counter advances by one (mod
2^16, it is a 16-bit counter) and `ptr` is reset to the start of the
(possibly new) front buffer; if the Swap Request Flag is set it is cleared
and the Front/Back Index flips, otherwise both are unchanged.  At every
other step of a sweep the flag, the index and the counter are all
unchanged. -/
theorem C3_swap_at_frame_boundary (s : WatchState) (hc : s.col < 8) (hp : s.plane < 8) :
    ((s.col = 7 ∧ s.plane = 7) →
       (tick s).frames = (s.frames + 1) % 65536
       ∧ (tick s).ptr = imgAddr s ((tick s).frontIdx)
       ∧ (s.swapFlag = true → (tick s).swapFlag = false
            ∧ (tick s).frontIdx = s.frontIdx ^^^ 1)
       ∧ (s.swapFlag = false → (tick s).swapFlag = false
            ∧ (tick s).frontIdx = s.frontIdx))
    ∧ (¬(s.col = 7 ∧ s.plane = 7) →
       (tick s).swapFlag = s.swapFlag ∧ (tick s).frontIdx = s.frontIdx
         ∧ (tick s).frames = s.frames) := by
  have hcol : s.col = 0 ∨ s.col = 1 ∨ s.col = 2 ∨ s.col = 3 ∨ s.col = 4 ∨ s.col = 5
      ∨ s.col = 6 ∨ s.col = 7 := by omega
  rcases hcol with h | h | h | h | h | h | h | h
  · exact ⟨fun hh => absurd hh.1 (by omega), fun _ => by rw [tick_col0 s h]; exact ⟨rfl, rfl, rfl⟩⟩
  · exact ⟨fun hh => absurd hh.1 (by omega), fun _ => by rw [tick_col1 s h]; exact ⟨rfl, rfl, rfl⟩⟩
  · exact ⟨fun hh => absurd hh.1 (by omega), fun _ => by rw [tick_col2 s h]; exact ⟨rfl, rfl, rfl⟩⟩
  · exact ⟨fun hh => absurd hh.1 (by omega), fun _ => by rw [tick_col3 s h]; exact ⟨rfl, rfl, rfl⟩⟩
  · exact ⟨fun hh => absurd hh.1 (by omega), fun _ => by rw [tick_col4 s h]; exact ⟨rfl, rfl, rfl⟩⟩
  · exact ⟨fun hh => absurd hh.1 (by omega), fun _ => by rw [tick_col5 s h]; exact ⟨rfl, rfl, rfl⟩⟩
  · exact ⟨fun hh => absurd hh.1 (by omega), fun _ => by rw [tick_col6 s h]; exact ⟨rfl, rfl, rfl⟩⟩
  · by_cases hp7 : s.plane = 7
    · refine ⟨fun _ => ?_, fun hn => absurd ⟨h, hp7⟩ hn⟩
      cases hfl : s.swapFlag
      · rw [tick_col7_wrap_noflag s h (by omega) hfl]
        exact ⟨rfl, rfl, fun hT => absurd hT (by decide), fun _ => ⟨hfl, rfl⟩⟩
      · rw [tick_col7_wrap_flag s h (by omega) hfl]
        exact ⟨rfl, rfl, fun _ => ⟨rfl, rfl⟩, fun hF => absurd hF (by decide)⟩
    · refine ⟨fun hh => absurd hh.2 hp7, fun _ => ?_⟩
      rw [tick_col7_nowrap s h (by omega)]
      exact ⟨rfl, rfl, rfl⟩

/-- Witness for C3 at the reset state (`col = 7`, `plane = 7`, no pending
swap request). -/
theorem C3_witness :
    (tick (initWatch false 0 (fun _ => 0))).swapFlag = false
    ∧ (tick (initWatch false 0 (fun _ => 0))).frontIdx
        = (initWatch false 0 (fun _ => 0)).frontIdx :=
  ((C3_swap_at_frame_boundary (initWatch false 0 (fun _ => 0)) (by decide)
    (by decide)).1 ⟨rfl, rfl⟩).2.2.2 rfl

/-! ### Claim C4 -/

set_option maxRecDepth 8192 in
/-- C4: the Column Traversal Order is a fixed permutation.  The interrupt
advances `col` by the hard-coded successor `nextCol`, and from any starting
column the iterates of `nextCol` visit every one of the 8 columns exactly
once before returning to the start. -/
theorem C4_column_permutation :
    (∀ s : WatchState, s.col < 8 → (tick s).col = nextCol s.col)
    ∧ (∀ c < 8,
        (∀ d < 8, ((List.range 8).map (fun i => nextCol^[i] c)).count d = 1)
        ∧ nextCol^[8] c = c) := by
  constructor
  · intro s hcl
    have hcol : s.col = 0 ∨ s.col = 1 ∨ s.col = 2 ∨ s.col = 3 ∨ s.col = 4 ∨ s.col = 5
        ∨ s.col = 6 ∨ s.col = 7 := by omega
    rcases hcol with h | h | h | h | h | h | h | h
    · rw [tick_col0 s h, h]; rfl
    · rw [tick_col1 s h, h]; rfl
    · rw [tick_col2 s h, h]; rfl
    · rw [tick_col3 s h, h]; rfl
    · rw [tick_col4 s h, h]; rfl
    · rw [tick_col5 s h, h]; rfl
    · rw [tick_col6 s h, h]; rfl
    · by_cases hp : s.plane + 1 ≥ 8
      · cases hfl : s.swapFlag
        · rw [tick_col7_wrap_noflag s h hp hfl, h]; rfl
        · rw [tick_col7_wrap_flag s h hp hfl, h]; rfl
      · rw [tick_col7_nowrap s h hp, h]; rfl
  · exact @of_decide_eq_true _ (Nat.decidableBallLT _ _) rfl

/-- Witness for C4: `tick` at the reset state follows `nextCol`, and the
traversal starting at column 0 is a full cycle. -/
theorem C4_witness :
    (tick (initWatch false 0 (fun _ => 0))).col
      = nextCol (initWatch false 0 (fun _ => 0)).col
    ∧ ((∀ d < 8, ((List.range 8).map (fun i => nextCol^[i] 0)).count d = 1)
        ∧ nextCol^[8] 0 = 0) :=
  ⟨C4_column_permutation.1 _ (by decide), C4_column_permutation.2 0 (by norm_num)⟩

/-! ### Claim C2 -/

set_option maxRecDepth 8192 in
/-- C2: the bit-angle-modulation timing law.  Under the scheduler's timer
invariant, every firing leaves `OCR1A` — the interval until the next firing
— equal to `(LEDMINTIME << plane) - OVERHEAD` for the bit-plane `plane`
displayed by that firing, so the effective on-time (interval plus the
interrupt's own overhead) is `LEDMINTIME * 2^plane`, and the invariant is
preserved.  Moreover, summed over the full 8-plane sweep of a frame, the
effective on-time of bit-plane `k` is `LEDMINTIME * 2^k` for every one of
the 8 columns — proportional to `2^k`. -/
theorem C2_bam_intervals :
    (∀ s : WatchState, schedInv s →
        (tick s).ocr = (LEDMINTIME <<< s.plane) - OVERHEAD
        ∧ (tick s).ocr + OVERHEAD = LEDMINTIME * 2 ^ s.plane
        ∧ schedInv (tick s))
    ∧ (∀ cc < 8, ∀ k < 8, planeOnTime cc k = LEDMINTIME * 2 ^ k) := by
  constructor
  · intro s hInv
    have hge : OVERHEAD ≤ LEDMINTIME * 2 ^ s.plane := by
      have h1 : 1 ≤ 2 ^ s.plane := Nat.one_le_two_pow
      simp only [OVERHEAD, LEDMINTIME]
      calc (53 : Nat) ≤ 60 * 1 := by norm_num
        _ ≤ 60 * 2 ^ s.plane := Nat.mul_le_mul_left 60 h1
    have hkey : (LEDMINTIME <<< s.plane) - OVERHEAD + OVERHEAD = LEDMINTIME * 2 ^ s.plane := by
      rw [Nat.shiftLeft_eq]
      exact Nat.sub_add_cancel hge
    by_cases h0 : s.col = 0
    · rw [tick_col0 s h0]
      exact ⟨rfl, hkey, fun _ => rfl⟩
    · have hocr : s.ocr = (LEDMINTIME <<< s.plane) - OVERHEAD := hInv h0
      have hocr2 : s.ocr + OVERHEAD = LEDMINTIME * 2 ^ s.plane := by
        rw [hocr]
        exact hkey
      have hcol : s.col = 1 ∨ s.col = 2 ∨ s.col = 3 ∨ s.col = 4 ∨ s.col = 5
          ∨ s.col = 6 ∨ s.col = 7 ∨ 8 ≤ s.col := by omega
      rcases hcol with h | h | h | h | h | h | h | h
      · rw [tick_col1 s h]; exact ⟨hocr, hocr2, fun _ => hocr⟩
      · rw [tick_col2 s h]; exact ⟨hocr, hocr2, fun _ => hocr⟩
      · rw [tick_col3 s h]; exact ⟨hocr, hocr2, fun _ => hocr⟩
      · rw [tick_col4 s h]; exact ⟨hocr, hocr2, fun _ => hocr⟩
      · rw [tick_col5 s h]; exact ⟨hocr, hocr2, fun _ => hocr⟩
      · rw [tick_col6 s h]; exact ⟨hocr, hocr2, fun _ => hocr⟩
      · by_cases hp : s.plane + 1 ≥ 8
        · cases hfl : s.swapFlag
          · rw [tick_col7_wrap_noflag s h hp hfl]
            exact ⟨hocr, hocr2, fun h00 => absurd rfl h00⟩
          · rw [tick_col7_wrap_flag s h hp hfl]
            exact ⟨hocr, hocr2, fun h00 => absurd rfl h00⟩
        · rw [tick_col7_nowrap s h hp]
          exact ⟨hocr, hocr2, fun h00 => absurd rfl h00⟩
      · rw [tick_default s h]
        exact ⟨hocr, hocr2, fun _ => hocr⟩
  · exact @of_decide_eq_true _ (Nat.decidableBallLT _ _) rfl

/-- Witness for C2 at the second firing after reset (the `col = 0` firing
of plane 0). -/
theorem C2_witness :
    (tick (tick (initWatch false 0 (fun _ => 0)))).ocr
      = (LEDMINTIME <<< (tick (initWatch false 0 (fun _ => 0))).plane) - OVERHEAD
    ∧ (tick (tick (initWatch false 0 (fun _ => 0)))).ocr + OVERHEAD
      = LEDMINTIME * 2 ^ (tick (initWatch false 0 (fun _ => 0))).plane
    ∧ schedInv (tick (tick (initWatch false 0 (fun _ => 0)))) :=
  C2_bam_intervals.1 (tick (initWatch false 0 (fun _ => 0))) (fun h => absurd rfl h)

/-! ### Button machine lemmas -/

theorem runEvents_append (s : ButtonState) (l1 l2 : List BEvent) :
    runEvents s (l1 ++ l2) = runEvents (runEvents s l1) l2 := by
  simp only [runEvents, List.foldl_append]

theorem emissions_append (s : ButtonState) (l1 l2 : List BEvent) :
    emissions s (l1 ++ l2) = emissions s l1 ++ emissions (runEvents s l1) l2 := by
  induction l1 generalizing s with
  | nil => rfl
  | cons e l ih =>
      show (emitted s e).toList ++ emissions (bstep s e) (l ++ l2) = _
      rw [ih (bstep s e)]
      show _ = ((emitted s e).toList ++ emissions (bstep s e) l)
        ++ emissions (runEvents (bstep s e) l) l2
      rw [List.append_assoc]

theorem tovf_gated (st : ButtonState) (h : st.t2en = false) :
    bstep st BEvent.tovf = st := by
  show (if st.t2en then t2ov st else st) = st
  rw [h]
  rfl

theorem emitted_tovf_gated (st : ButtonState) (h : st.t2en = false) :
    emitted st BEvent.tovf = none := by
  show (if st.t2en = true ∧ st.bCount ≥ 76 then _ else none) = none
  rw [if_neg]
  intro hh
  rw [h] at hh
  exact Bool.false_ne_true hh.1

theorem runEvents_tovf_gated (st : ButtonState) (h : st.t2en = false) (j : Nat) :
    runEvents st (List.replicate j BEvent.tovf) = st := by
  induction j with
  | zero => rfl
  | succ j ih =>
      rw [List.replicate_succ]
      show runEvents (bstep st BEvent.tovf) (List.replicate j BEvent.tovf) = st
      rw [tovf_gated st h]
      exact ih

theorem emissions_tovf_gated (st : ButtonState) (h : st.t2en = false) (j : Nat) :
    emissions st (List.replicate j BEvent.tovf) = [] := by
  induction j with
  | zero => rfl
  | succ j ih =>
      rw [List.replicate_succ]
      show (emitted st BEvent.tovf).toList
        ++ emissions (bstep st BEvent.tovf) (List.replicate j BEvent.tovf) = []
      rw [emitted_tovf_gated st h, tovf_gated st h, ih]
      rfl

/-- Consistency of the instrumentation: a stimulus assigns `bAction` the
value `emitted` reports, and leaves it alone when `emitted` is `none`. -/
theorem bstep_bAction (s : ButtonState) (e : BEvent) :
    (bstep s e).bAction = (emitted s e).getD s.bAction := by
  cases e with
  | tovf =>
      cases ht : s.t2en
      · rw [emitted_tovf_gated s ht, tovf_gated s ht]
        rfl
      · show (if s.t2en = true then t2ov s else s).bAction
          = (if s.t2en = true ∧ s.bCount ≥ 76 then
              if s.bSave = 8 then some ACTION_HOLD_LEFT
              else if s.bSave = 4 then some ACTION_HOLD_RIGHT
              else if s.bSave = 0 then some ACTION_HOLD_BOTH
              else none
            else none).getD s.bAction
        rw [if_pos ht]
        unfold t2ov
        by_cases hc : s.bCount ≥ 76
        · have hand : s.t2en = true ∧ s.bCount ≥ 76 := ⟨ht, hc⟩
          rw [if_pos hc, if_pos hand]
          by_cases h8 : s.bSave = 8
          · simp [h8]
          · by_cases h4 : s.bSave = 4
            · simp [h8, h4]
            · by_cases hz : s.bSave = 0
              · simp [h8, h4, hz]
              · simp [h8, h4, hz]
        · rw [if_neg hc, if_neg (fun hh => hc hh.2)]
          rfl
  | edge p =>
      show (int0 s p).bAction = _
      unfold int0 emitted
      by_cases hb : (p &&& 12) = 12
      · simp only [hb, if_pos]
        by_cases hcnt : s.bCount > 2
        · simp only [hcnt, if_pos]
          by_cases h8 : s.bSave = 8
          · simp [h8]
          · by_cases h4 : s.bSave = 4
            · simp [h8, h4]
            · simp [h8, h4]
        · simp [hcnt]
      · simp only [hb, if_neg, if_false]
        by_cases hsv : (p &&& 12) = s.bSave
        · simp [hsv]
        · simp [hsv]

/-! ### Claim C8 -/

set_option maxRecDepth 8192 in
/-- C8 (amended): a press held through at least 77 secondary-timer
overflows — i.e. held until the overflow handler observes the hold counter
at its threshold of 76 — produces exactly one hold action (HoldLeft,
HoldRight or HoldBoth according to the pressed mask), stops the secondary
timer, and latches: neither the remaining overflows nor the final release
emits anything further. -/
theorem C8_hold_once (p m : Nat) (hp : p = 8 ∨ p = 4 ∨ p = 0) (hm : 77 ≤ m) :
    emissions initButtons (pressHoldRelease p m) = [holdActionFor p]
    ∧ (runEvents initButtons (pressHoldRelease p m)).bAction = holdActionFor p
    ∧ (runEvents initButtons (pressHoldRelease p m)).t2en = false := by
  obtain ⟨j, rfl⟩ : ∃ j, m = 77 + j := ⟨m - 77, by omega⟩
  have hsplit : pressHoldRelease p (77 + j)
      = (BEvent.edge p :: List.replicate 77 BEvent.tovf)
        ++ (List.replicate j BEvent.tovf ++ [BEvent.edge 12]) := by
    unfold pressHoldRelease
    rw [List.replicate_add]
    simp [List.append_assoc]
  rw [hsplit]
  rcases hp with rfl | rfl | rfl
  · have hpre : runEvents initButtons (BEvent.edge 8 :: List.replicate 77 BEvent.tovf)
        = { bSave := 0, bCount := 0, bAction := ACTION_HOLD_LEFT, t2en := false } := by decide
    have hepre : emissions initButtons (BEvent.edge 8 :: List.replicate 77 BEvent.tovf)
        = [ACTION_HOLD_LEFT] := by decide
    rw [emissions_append, runEvents_append, hpre, hepre, emissions_append, runEvents_append,
      runEvents_tovf_gated _ rfl j, emissions_tovf_gated _ rfl j]
    exact ⟨by decide, by decide, by decide⟩
  · have hpre : runEvents initButtons (BEvent.edge 4 :: List.replicate 77 BEvent.tovf)
        = { bSave := 0, bCount := 0, bAction := ACTION_HOLD_RIGHT, t2en := false } := by decide
    have hepre : emissions initButtons (BEvent.edge 4 :: List.replicate 77 BEvent.tovf)
        = [ACTION_HOLD_RIGHT] := by decide
    rw [emissions_append, runEvents_append, hpre, hepre, emissions_append, runEvents_append,
      runEvents_tovf_gated _ rfl j, emissions_tovf_gated _ rfl j]
    exact ⟨by decide, by decide, by decide⟩
  · have hpre : runEvents initButtons (BEvent.edge 0 :: List.replicate 77 BEvent.tovf)
        = { bSave := 0, bCount := 0, bAction := ACTION_HOLD_BOTH, t2en := false } := by decide
    have hepre : emissions initButtons (BEvent.edge 0 :: List.replicate 77 BEvent.tovf)
        = [ACTION_HOLD_BOTH] := by decide
    rw [emissions_append, runEvents_append, hpre, hepre, emissions_append, runEvents_append,
      runEvents_tovf_gated _ rfl j, emissions_tovf_gated _ rfl j]
    exact ⟨by decide, by decide, by decide⟩

set_option maxRecDepth 8192 in
/-- Counterexample to C8 as stated: a left press held for exactly 76
secondary-timer ticks yields no hold action at all — the hold fires only on
the 77th overflow, when the counter has already counted to 76 — and the
subsequent release classifies a TapLeft instead. -/
theorem C8_counterexample :
    emissions initButtons (pressHoldRelease 8 76) = [ACTION_TAP_LEFT]
    ∧ (runEvents initButtons (pressHoldRelease 8 76)).bAction = ACTION_TAP_LEFT := by
  exact ⟨by decide, by decide⟩

/-- Witness for C8 at a left press held for 77 overflows. -/
theorem C8_witness :
    ((8 = 8 ∨ (8 : Nat) = 4 ∨ (8 : Nat) = 0) ∧ 77 ≤ 77)
    ∧ (emissions initButtons (pressHoldRelease 8 77) = [holdActionFor 8]
       ∧ (runEvents initButtons (pressHoldRelease 8 77)).bAction = holdActionFor 8
       ∧ (runEvents initButtons (pressHoldRelease 8 77)).t2en = false) :=
  ⟨⟨Or.inl rfl, le_refl 77⟩, C8_hold_once 8 77 (Or.inl rfl) (le_refl 77)⟩

/-! ### Claim C9 -/

set_option maxRecDepth 65536 in
/-- C9 (amended): tap classification with debounce.  For a single button
pressed and then released after `t` secondary-timer ticks: if `2 < t ≤ 76`
(the release comes after the debounce threshold but before the hold fires)
exactly one corresponding tap action is emitted and becomes pending, and
`action()` returns it once and thereafter None; if `t < 3` no action is
produced at all. -/
theorem C9_tap_debounce (p t : Nat) (hp : p = 8 ∨ p = 4) :
    (2 < t → t ≤ 76 →
        emissions initButtons (pressHoldRelease p t) = [tapActionFor p]
        ∧ (pollAction (runEvents initButtons (pressHoldRelease p t))).1 = tapActionFor p
        ∧ (pollAction (pollAction (runEvents initButtons (pressHoldRelease p t))).2).1
            = ACTION_NONE)
    ∧ (t < 3 →
        emissions initButtons (pressHoldRelease p t) = []
        ∧ (pollAction (runEvents initButtons (pressHoldRelease p t))).1 = ACTION_NONE) := by
  constructor
  · intro h2 h76
    rcases hp with rfl | rfl
    · interval_cases t <;> exact ⟨by decide, by decide, by decide⟩
    · interval_cases t <;> exact ⟨by decide, by decide, by decide⟩
  · intro h3
    rcases hp with rfl | rfl
    · interval_cases t <;> exact ⟨by decide, by decide⟩
    · interval_cases t <;> exact ⟨by decide, by decide⟩

set_option maxRecDepth 8192 in
/-- Counterexample to C9 as stated: a left press released after 77
secondary-timer ticks has "more than 2 ticks elapsed before the release",
yet no tap becomes pending — the hold already fired, so the pending action
is HoldLeft and the only emission of the trace is HoldLeft. -/
theorem C9_counterexample :
    (2 : Nat) < 77
    ∧ (pollAction (runEvents initButtons (pressHoldRelease 8 77))).1 ≠ ACTION_TAP_LEFT
    ∧ emissions initButtons (pressHoldRelease 8 77) = [ACTION_HOLD_LEFT] := by
  exact ⟨by norm_num, by decide, by decide⟩

/-- Witness for C9 at a left press released after 5 ticks. -/
theorem C9_witness :
    ((2 : Nat) < 5 ∧ (5 : Nat) ≤ 76)
    ∧ (emissions initButtons (pressHoldRelease 8 5) = [tapActionFor 8]
        ∧ (pollAction (runEvents initButtons (pressHoldRelease 8 5))).1 = tapActionFor 8
        ∧ (pollAction (pollAction (runEvents initButtons (pressHoldRelease 8 5))).2).1
            = ACTION_NONE) :=
  ⟨⟨by norm_num, by norm_num⟩, (C9_tap_debounce 8 5 (Or.inl rfl)).1 (by norm_num) (by norm_num)⟩

end TimeSquare
